import Mathlib

/-!
Shallow embedding of the node-keystone-server state-synchronization core.

The wire codec (protocol.ts: timecode utilities, encodeServerMessage,
decodeClientMessage) and the entity store (game.ts: Game class backed by a
players Map, a playerNames Set and a lastKnownPositions Map, together with
the set_name dispatch branch of server.ts) are translated to pure Lean
functions.  JavaScript Maps become insertion-ordered association lists with
unique keys, Sets become duplicate-free lists, numbers become integers
(the store only assigns and compares coordinates, never computes with
them, so any type with decidable equality is faithful to the source), and
JavaScript truthiness of an optional string field is made explicit: a
field is truthy exactly when it is present and not the empty string.
-/

set_option linter.unusedVariables false

/-- Wrap period of the 24-bit millisecond timecode, protocol.ts line 13
(`TIMECODE_WRAP = 2**24`). -/
def TIMECODE_WRAP : ℤ := 2 ^ 24

/-- Signed wraparound distance between two timecodes, protocol.ts lines
31-43: raw difference, minus a full wrap when it exceeds +half-wrap, plus a
full wrap when it is below -half-wrap.  The two local constants `diff` and
`halfWrap` of the source are inlined. -/
def timecodeDistance (newer older : ℤ) : ℤ :=
  if newer - older > TIMECODE_WRAP / 2 then newer - older - TIMECODE_WRAP
  else if newer - older < -(TIMECODE_WRAP / 2) then newer - older + TIMECODE_WRAP
  else newer - older

/-- Immutable snapshot of a player, player.ts `PlayerState` (the variant
with x, y, z and rot that game.ts consumes). -/
structure PlayerState where
  id : String
  x : ℤ
  y : ℤ
  z : ℤ
  rot : ℤ
deriving DecidableEq, Repr

/-- A JSON-like runtime value, the domain of what `JSON.parse` or the
MessagePack `decode` can hand to `decodeClientMessage`. -/
inductive JValue where
  | jnull : JValue
  | jbool : Bool → JValue
  | jnum : ℤ → JValue
  | jstr : String → JValue
  | jarr : List JValue → JValue
  | jobj : List (String × JValue) → JValue

/-- Property-presence test, the JavaScript `'k' in decoded` check on a
plain object. -/
def hasKey (fs : List (String × JValue)) (k : String) : Bool :=
  fs.any (fun e => e.1 = k)

/-- Decoder for inbound client messages, protocol.ts lines 98-130.  The
serialization-format step (JSON.parse or msgpack decode, together with the
msgpack-expects-bytes guard of lines 103-106) is abstracted to its result:
`none` models any input whose parse throws or is refused, which the
surrounding try/catch turns into a `null` return.  On a successfully
parsed value the source checks `typeof decoded === 'object' && decoded !==
null && 'type' in decoded`; only a plain object can satisfy the `'type' in`
test (arrays carry no such property), then a missing `t` field is stamped
with the current timecode `now` and the object is returned unchanged. -/
def decodeClientMessage (parsed : Option JValue) (now : ℤ) : Option JValue :=
  match parsed with
  | none => none
  | some v =>
    match v with
    | .jobj fs =>
        if hasKey fs "type" then
          some (.jobj (if hasKey fs "t" then fs else fs ++ [("t", .jnum now)]))
        else none
    | _ => none

/-- Outbound server message, protocol.ts lines 65-83.  The `t` field is
declared required in the TypeScript interfaces but every construction site
in server.ts omits it behind an `as` cast, so at runtime it is `number |
undefined`: modelled as `Option ℤ`. -/
inductive ServerMessage where
  | state (players : List PlayerState) (t : Option ℤ)
  | connected (playerId : String) (t : Option ℤ)
  | disconnected (playerId : String) (t : Option ℤ)
deriving DecidableEq, Repr

/-- The `t` field of a server message. -/
def ServerMessage.t : ServerMessage → Option ℤ
  | .state _ t => t
  | .connected _ t => t
  | .disconnected _ t => t

/-- The spread `{ ...message, t: tv }` of protocol.ts lines 86-89: same
variant and payload, `t` overwritten. -/
def ServerMessage.withT : ServerMessage → ℤ → ServerMessage
  | .state ps _, tv => .state ps (some tv)
  | .connected pid _, tv => .connected pid (some tv)
  | .disconnected pid _, tv => .disconnected pid (some tv)

/-- Encoder for outbound server messages, protocol.ts lines 85-96, up to
the final injective serialization (JSON.stringify or msgpack encode, which
carry every field through unchanged): the message actually serialized is
`{ ...message, t: message.t || getTimecode() }`.  JavaScript `||` takes
the right operand when `message.t` is falsy, that is `undefined` or `0`
(`NaN` is not representable here); `now` is the value of `getTimecode()`. -/
def encodeServerMessage (m : ServerMessage) (now : ℤ) : ServerMessage :=
  m.withT (match m.t with
           | some tv => if tv = 0 then now else tv
           | none => now)

/-- Lookup in a JavaScript Map modelled as an insertion-ordered
association list (first matching key wins; a Map never holds a key
twice). -/
def mapGet {α : Type} (l : List (String × α)) (k : String) : Option α :=
  match l with
  | [] => none
  | (k1, v) :: rest => if k1 = k then some v else mapGet rest k

/-- Map.set: overwrite the value at an existing key in place, otherwise
append the new entry at the end, as JavaScript Maps do. -/
def mapSet {α : Type} (l : List (String × α)) (k : String) (v : α) : List (String × α) :=
  match l with
  | [] => [(k, v)]
  | (k1, v1) :: rest => if k1 = k then (k1, v) :: rest else (k1, v1) :: mapSet rest k v

/-- Map.delete: drop the entry with the given key, keeping the order of
the rest. -/
def mapDelete {α : Type} (l : List (String × α)) (k : String) : List (String × α) :=
  l.filter (fun e => e.1 ≠ k)

/-- The keys of an association list, in order. -/
def keysOf {α : Type} (l : List (String × α)) : List String :=
  l.map (fun e => e.1)

/-- Set.has on a JavaScript Set modelled as a duplicate-free list. -/
def setHas (l : List String) (n : String) : Bool :=
  l.contains n

/-- Set.add: append when not already present. -/
def setAdd (l : List String) (n : String) : List String :=
  if l.contains n then l else l ++ [n]

/-- Set.delete: remove the element. -/
def setDelete (l : List String) (n : String) : List String :=
  l.filter (fun m => m ≠ n)

/-- Mutable backing record of one connected player, player.ts `Player`
(id, x, y, z, rot) plus the `name` property that game.ts reads and writes
on it; a freshly constructed Player has no name (`undefined`, modelled as
`none`). -/
structure Player where
  id : String
  x : ℤ
  y : ℤ
  z : ℤ
  rot : ℤ
  name : Option String
deriving DecidableEq, Repr

/-- player.ts `getState()`: the immutable snapshot of the public fields. -/
def Player.getState (p : Player) : PlayerState :=
  ⟨p.id, p.x, p.y, p.z, p.rot⟩

/-- One entry of the lastKnownPositions cache, game.ts line 11. -/
structure Snap where
  x : ℤ
  z : ℤ
  rot : ℤ
deriving DecidableEq, Repr

/-- The x, z and rotation of a player as a cache entry. -/
def snapOf (p : Player) : Snap :=
  ⟨p.x, p.z, p.rot⟩

/-- The mutable state owned by the game.ts `Game` class: the players Map,
the playerNames Set and the lastKnownPositions Map (lines 9-11). -/
structure GameState where
  players : List (String × Player)
  playerNames : List String
  lastKnownPositions : List (String × Snap)
deriving DecidableEq, Repr

/-- The state built by the Game constructor, game.ts lines 15-21: all
three containers empty. -/
def initialGame : GameState :=
  ⟨[], [], []⟩

/-- game.ts isNameAvailable, lines 54-56. -/
def isNameAvailable (s : GameState) (n : String) : Bool :=
  !(setHas s.playerNames n)

/-- game.ts setPlayerName, lines 64-86: fail when the player does not
exist or the name is already in the playerNames set; otherwise delete the
player's previous name from the set when that name is truthy (JavaScript
`if (player.name)` tests the string for presence AND non-emptiness, so a
previous empty-string name is skipped and stays in the set), assign the
new name to the player and add it to the set. -/
def setPlayerName (s : GameState) (playerId n : String) : Bool × GameState :=
  match mapGet s.players playerId with
  | none => (false, s)
  | some player =>
    if setHas s.playerNames n then (false, s)
    else
      let names1 := match player.name with
        | some old => if old = "" then s.playerNames else setDelete s.playerNames old
        | none => s.playerNames
      (true, { s with
                 players := mapSet s.players playerId { player with name := some n },
                 playerNames := setAdd names1 n })

/-- game.ts addPlayer, lines 96-111: when the id already exists, return
the existing state unchanged; otherwise resolve each omitted coordinate
(the source draws `generateRandomCoordinate()` for x and z and uses 0 for
rot; the two random draws are passed in here as the oracle values `randX`
and `randZ`), construct the Player with y fixed at 1, insert it and seed
its lastKnownPositions entry. -/
def addPlayer (s : GameState) (playerId : String)
    (initialX initialZ initialRot : Option ℤ) (randX randZ : ℤ) : PlayerState × GameState :=
  match mapGet s.players playerId with
  | some p => (p.getState, s)
  | none =>
    let x := initialX.getD randX
    let z := initialZ.getD randZ
    let rot := initialRot.getD 0
    let player : Player := ⟨playerId, x, 1, z, rot, none⟩
    (player.getState,
     { s with
         players := mapSet s.players playerId player,
         lastKnownPositions := mapSet s.lastKnownPositions playerId ⟨x, z, rot⟩ })

/-- game.ts removePlayer, lines 118-132: when the player exists, delete
its name from the playerNames set when that name is truthy (again the
JavaScript `if (player.name)` check, which skips an empty-string name),
drop the player and its lastKnownPositions entry and return true;
otherwise return false with the state unchanged. -/
def removePlayer (s : GameState) (playerId : String) : Bool × GameState :=
  match mapGet s.players playerId with
  | some player =>
    let names1 := match player.name with
      | some old => if old = "" then s.playerNames else setDelete s.playerNames old
      | none => s.playerNames
    (true, { players := mapDelete s.players playerId,
             playerNames := names1,
             lastKnownPositions := mapDelete s.lastKnownPositions playerId })
  | none => (false, s)

/-- game.ts updatePlayerPosition, lines 142-154: when the player exists,
overwrite x and z, overwrite rot only when the argument is supplied
(`newRot ?? player.rot`), leave y untouched and return the new snapshot;
otherwise return null with the state unchanged. -/
def updatePlayerPosition (s : GameState) (playerId : String) (newX newZ : ℤ)
    (newRot : Option ℤ) : Option PlayerState × GameState :=
  match mapGet s.players playerId with
  | some player =>
    let player1 := { player with x := newX, z := newZ, rot := newRot.getD player.rot }
    (some player1.getState, { s with players := mapSet s.players playerId player1 })
  | none => (none, s)

/-- game.ts getAllPlayerStates, lines 191-193. -/
def getAllPlayerStates (s : GameState) : List PlayerState :=
  s.players.map (fun e => e.2.getState)

/-- Body of the loop of game.ts getUpdatedPlayerStates, lines 202-215:
one player is compared against the evolving lastKnownPositions cache; a
player with no cache entry, or whose x, z or rot differs from the entry,
is appended to the result and its entry is overwritten with the current
values. -/
def updateStep (acc : List PlayerState × List (String × Snap)) (e : String × Player) :
    List PlayerState × List (String × Snap) :=
  match mapGet acc.2 e.1 with
  | none => (acc.1 ++ [e.2.getState], mapSet acc.2 e.1 (snapOf e.2))
  | some last =>
      if e.2.x ≠ last.x ∨ e.2.z ≠ last.z ∨ e.2.rot ≠ last.rot then
        (acc.1 ++ [e.2.getState], mapSet acc.2 e.1 (snapOf e.2))
      else acc

/-- game.ts getUpdatedPlayerStates, lines 199-218: fold the loop body
over the players in map order, returning the collected states and the
updated cache. -/
def getUpdatedPlayerStates (s : GameState) : List PlayerState × GameState :=
  let r := s.players.foldl updateStep ([], s.lastKnownPositions)
  (r.1, { s with lastKnownPositions := r.2 })

/-- The change-detection predicate of game.ts lines 208-211, read against
a fixed cache: true when the player has no entry or any of x, z, rot
differs from it. -/
def changedSince (lkp : List (String × Snap)) (e : String × Player) : Bool :=
  match mapGet lkp e.1 with
  | none => true
  | some last => decide (e.2.x ≠ last.x ∨ e.2.z ≠ last.z ∨ e.2.rot ≠ last.rot)

/-- Reply sent by the set_name branch of server.ts lines 112-132. -/
inductive SetNameReply where
  | accepted : SetNameReply
  | rejected (reason : String) : SetNameReply
deriving DecidableEq, Repr

/-- The set_name dispatch branch of server.ts lines 112-132: the guard
`setNameMsg.name && typeof setNameMsg.name === 'string'` holds exactly
when the name field is a string and non-empty (a missing field is falsy),
in which case game.setPlayerName decides between name_accepted and
name_rejected with reason "Name already taken"; any other name field is
rejected with reason "Invalid name format". -/
def handleSetName (s : GameState) (playerId : String) (nameField : Option JValue) :
    SetNameReply × GameState :=
  match nameField with
  | some (.jstr n) =>
      if n = "" then (.rejected "Invalid name format", s)
      else
        let r := setPlayerName s playerId n
        ((if r.1 then .accepted else .rejected "Name already taken"), r.2)
  | _ => (.rejected "Invalid name format", s)

/-- The well-formedness invariant of the entity store: both maps have
duplicate-free keys, the lastKnownPositions cache has an entry exactly for
the live players, every name held by a live player is in the playerNames
set, and no two distinct live players hold the same name. -/
structure StoreInv (s : GameState) : Prop where
  playersNodup : (keysOf s.players).Nodup
  lkpNodup : (keysOf s.lastKnownPositions).Nodup
  keysMatch : ∀ k, (mapGet s.lastKnownPositions k).isSome = (mapGet s.players k).isSome
  heldMem : ∀ pid p n, mapGet s.players pid = some p → p.name = some n →
    setHas s.playerNames n = true
  uniqueNames : ∀ pid1 pid2 p1 p2 n, mapGet s.players pid1 = some p1 →
    mapGet s.players pid2 = some p2 → p1.name = some n → p2.name = some n → pid1 = pid2

/-- The store states reachable from the constructor state by the public
mutating operations of game.ts. -/
inductive Reachable : GameState → Prop where
  | init : Reachable initialGame
  | add (s : GameState) (pid : String) (ix iz irot : Option ℤ) (rx rz : ℤ) :
      Reachable s → Reachable (addPlayer s pid ix iz irot rx rz).2
  | remove (s : GameState) (pid : String) :
      Reachable s → Reachable (removePlayer s pid).2
  | move (s : GameState) (pid : String) (nx nz : ℤ) (nr : Option ℤ) :
      Reachable s → Reachable (updatePlayerPosition s pid nx nz nr).2
  | rename (s : GameState) (pid n : String) :
      Reachable s → Reachable (setPlayerName s pid n).2
  | snapshot (s : GameState) :
      Reachable s → Reachable (getUpdatedPlayerStates s).2

/-- C10: for any two timecodes in [0, 2^24) the wraparound distance lies
in the closed interval [-2^23, 2^23]. -/
theorem timecodeDistance_bounded (a b : ℤ) (ha0 : 0 ≤ a) (ha1 : a < 2 ^ 24)
    (hb0 : 0 ≤ b) (hb1 : b < 2 ^ 24) :
    -(2 ^ 23) ≤ timecodeDistance a b ∧ timecodeDistance a b ≤ 2 ^ 23 := by
  simp only [timecodeDistance, TIMECODE_WRAP]
  norm_num
  split_ifs <;> omega

/-- Concrete instantiation of timecodeDistance_bounded at a = 2^24 - 1,
b = 0. -/
theorem timecodeDistance_bounded_witness :
    (0 : ℤ) ≤ 2 ^ 24 - 1 ∧ (2 ^ 24 - 1 : ℤ) < 2 ^ 24 ∧ (0 : ℤ) ≤ 0 ∧ (0 : ℤ) < 2 ^ 24 ∧
    (-(2 ^ 23) ≤ timecodeDistance (2 ^ 24 - 1) 0 ∧ timecodeDistance (2 ^ 24 - 1) 0 ≤ 2 ^ 23) :=
  ⟨by norm_num, by norm_num, le_refl 0, by norm_num,
   timecodeDistance_bounded (2 ^ 24 - 1) 0 (by norm_num) (by norm_num) (by norm_num) (by norm_num)⟩

/-- C1 (amended): antisymmetry holds for all timecodes in range, the worked
example holds, and timecodeDistance reconstructs a true signed elapsed time
d across a wrap boundary whenever the magnitude of d is strictly below
2^23 (at exactly 2^23 the wrapped value is ambiguous and the sign of the
result can flip, see the counterexample). -/
theorem timecodeDistance_antisym_reconstruct (a b d : ℤ)
    (ha0 : 0 ≤ a) (ha1 : a < 2 ^ 24) (hb0 : 0 ≤ b) (hb1 : b < 2 ^ 24)
    (hd : |d| < 2 ^ 23) :
    timecodeDistance a b = -timecodeDistance b a ∧
    timecodeDistance ((b + d) % 2 ^ 24) b = d ∧
    timecodeDistance 5 (2 ^ 24 - 3) = 8 := by
  have habs : -(2 ^ 23) < d ∧ d < 2 ^ 23 := abs_lt.mp hd
  refine ⟨?_, ?_, ?_⟩
  · simp only [timecodeDistance, TIMECODE_WRAP]
    norm_num
    split_ifs <;> omega
  · have hmod : (b + d) % 2 ^ 24 = b + d - 2 ^ 24 * ((b + d) / 2 ^ 24) := Int.emod_def _ _
    have h0 : 0 ≤ (b + d) % 2 ^ 24 := Int.emod_nonneg _ (by norm_num)
    have h1 : (b + d) % 2 ^ 24 < 2 ^ 24 := Int.emod_lt_of_pos _ (by norm_num)
    simp only [timecodeDistance, TIMECODE_WRAP]
    norm_num
    split_ifs <;> omega
  · decide

/-- Concrete instantiation of timecodeDistance_antisym_reconstruct at the
spec's own example, a = 5, b = 2^24 - 3, d = 8. -/
theorem timecodeDistance_antisym_reconstruct_witness :
    ((0 : ℤ) ≤ 5 ∧ (5 : ℤ) < 2 ^ 24 ∧ (0 : ℤ) ≤ 2 ^ 24 - 3 ∧ (2 ^ 24 - 3 : ℤ) < 2 ^ 24 ∧
      |(8 : ℤ)| < 2 ^ 23) ∧
    (timecodeDistance 5 (2 ^ 24 - 3) = -timecodeDistance (2 ^ 24 - 3) 5 ∧
      timecodeDistance ((2 ^ 24 - 3 + 8) % 2 ^ 24) (2 ^ 24 - 3) = 8 ∧
      timecodeDistance 5 (2 ^ 24 - 3) = 8) :=
  ⟨⟨by norm_num, by norm_num, by norm_num, by norm_num, by norm_num⟩,
   timecodeDistance_antisym_reconstruct 5 (2 ^ 24 - 3) 8 (by norm_num) (by norm_num)
     (by norm_num) (by norm_num) (by norm_num)⟩

/-- C1 counterexample: the true elapsed time d = -2^23 satisfies the
claim's bound |d| ≤ 2^23 and lands, from older timecode b = 0, on the newer
timecode (0 + d) mod 2^24 = 2^23, yet timecodeDistance returns +2^23, not
the true signed elapsed time -2^23. -/
theorem timecodeDistance_reconstruct_cex :
    |(-(2 ^ 23) : ℤ)| ≤ 2 ^ 23 ∧
    ((0 : ℤ) + -(2 ^ 23)) % 2 ^ 24 = 2 ^ 23 ∧
    timecodeDistance (2 ^ 23) 0 = 2 ^ 23 ∧
    (2 ^ 23 : ℤ) ≠ -(2 ^ 23) := by decide

/-- C5 (amended): decodeClientMessage accepts exactly the parsed inputs
that are plain objects carrying a type property - the discriminant value is
never compared against the known variants and no required field is checked
- and on acceptance returns that very object: unchanged when it already has
a t field, and otherwise with ("t", now) appended, now being the current
timecode; either way the result carries a t field; every other input,
parse failures included, yields null (none) rather than a fault. -/
theorem decodeClientMessage_shape (parsed : Option JValue) (now : ℤ) :
    ((decodeClientMessage parsed now).isSome = true ↔
      ∃ fs, parsed = some (.jobj fs) ∧ hasKey fs "type" = true) ∧
    (∀ fs, parsed = some (.jobj fs) → hasKey fs "type" = true →
      decodeClientMessage parsed now =
        some (.jobj (if hasKey fs "t" = true then fs else fs ++ [("t", .jnum now)])) ∧
      hasKey (if hasKey fs "t" = true then fs else fs ++ [("t", .jnum now)]) "t" = true) := by
  constructor
  · constructor
    · intro h
      match parsed with
      | none => simp [decodeClientMessage] at h
      | some v =>
        match v with
        | .jnull | .jbool _ | .jnum _ | .jstr _ | .jarr _ =>
            simp [decodeClientMessage] at h
        | .jobj fs =>
            refine ⟨fs, rfl, ?_⟩
            by_contra hk
            simp [decodeClientMessage, Bool.not_eq_true] at h hk
            rw [hk] at h
            simp at h
    · rintro ⟨fs, rfl, hk⟩
      simp [decodeClientMessage, hk]
  · rintro fs rfl hk
    constructor
    · simp [decodeClientMessage, hk]
    · by_cases ht : hasKey fs "t" = true
      · simp [ht]
      · have ht2 : ¬ (hasKey fs "t" = true) := ht
        rw [if_neg ht2]
        simp [hasKey]

/-- Concrete instantiation of decodeClientMessage_shape on the object with
a type property "move" and no t, at timecode 9. -/
theorem decodeClientMessage_shape_witness :
    ((decodeClientMessage (some (.jobj [("type", .jstr "move")])) 9).isSome = true ↔
      ∃ fs, (some (JValue.jobj [("type", .jstr "move")]) : Option JValue) = some (.jobj fs) ∧
        hasKey fs "type" = true) ∧
    (∀ fs, (some (JValue.jobj [("type", .jstr "move")]) : Option JValue) = some (.jobj fs) →
      hasKey fs "type" = true →
      decodeClientMessage (some (.jobj [("type", .jstr "move")])) 9 =
        some (.jobj (if hasKey fs "t" = true then fs else fs ++ [("t", .jnum 9)])) ∧
      hasKey (if hasKey fs "t" = true then fs else fs ++ [("t", .jnum 9)]) "t" = true) :=
  decodeClientMessage_shape (some (.jobj [("type", .jstr "move")])) 9

/-- C5 counterexample: the object whose discriminant is the unknown
variant "bogus", with no required field at all, is not rejected: the
decoder returns it (with a timecode stamped) instead of the decode-failure
null the claim requires for any shape other than a well-typed known
variant. -/
theorem decodeClientMessage_cex :
    decodeClientMessage (some (.jobj [("type", .jstr "bogus")])) 0 =
      some (.jobj [("type", .jstr "bogus"), ("t", .jnum 0)]) ∧
    (∀ fs, JValue.jobj [("type", JValue.jstr "bogus"), ("t", JValue.jnum 0)] ≠ .jobj fs ∨
      hasKey fs "x" = false) := by
  constructor
  · rfl
  · intro fs
    by_cases h : JValue.jobj [("type", JValue.jstr "bogus"), ("t", JValue.jnum 0)] = .jobj fs
    · right
      cases h
      rfl
    · left
      exact h

/-- C6 (amended): every encoded server message carries a timecode; a
caller-supplied nonzero timecode is carried through exactly, but an absent
timecode and the supplied value 0 are both replaced by the current
timecode, because the source selects it with the JavaScript `||` operator
and 0 is falsy. -/
theorem encodeServerMessage_timecode (m : ServerMessage) (now : ℤ) :
    (encodeServerMessage m now).t.isSome = true ∧
    (m.t = none → (encodeServerMessage m now).t = some now) ∧
    (m.t = some 0 → (encodeServerMessage m now).t = some now) ∧
    (∀ tv : ℤ, m.t = some tv → tv ≠ 0 → (encodeServerMessage m now).t = some tv) := by
  cases m <;>
    rename_i tfield <;>
    match tfield with
    | none => simp [encodeServerMessage, ServerMessage.t, ServerMessage.withT]
    | some tv =>
        by_cases h : tv = 0 <;>
          simp [encodeServerMessage, ServerMessage.t, ServerMessage.withT, h]

/-- Concrete instantiation of encodeServerMessage_timecode on a connected
message with no timecode, at timecode 7. -/
theorem encodeServerMessage_timecode_witness :
    (encodeServerMessage (.connected "p" none) 7).t.isSome = true ∧
    ((ServerMessage.connected "p" none).t = none →
      (encodeServerMessage (.connected "p" none) 7).t = some 7) ∧
    ((ServerMessage.connected "p" none).t = some 0 →
      (encodeServerMessage (.connected "p" none) 7).t = some 7) ∧
    (∀ tv : ℤ, (ServerMessage.connected "p" none).t = some tv → tv ≠ 0 →
      (encodeServerMessage (.connected "p" none) 7).t = some tv) :=
  encodeServerMessage_timecode (.connected "p" none) 7

/-- C6 counterexample: a message carrying the timecode 0 is not encoded
with that caller-supplied value: at current timecode 5 the encoder emits
t = 5, because `message.t || getTimecode()` discards the falsy 0. -/
theorem encodeServerMessage_cex :
    (ServerMessage.connected "p" (some 0)).t = some 0 ∧
    (encodeServerMessage (.connected "p" (some 0)) 5).t = some 5 ∧
    (some (5 : ℤ)) ≠ some (0 : ℤ) := by decide

theorem mapGet_mapSet_self {α : Type} (l : List (String × α)) (k : String) (v : α) :
    mapGet (mapSet l k v) k = some v := by
  induction l with
  | nil => simp [mapGet, mapSet]
  | cons e rest ih =>
    obtain ⟨k1, v1⟩ := e
    by_cases h : k1 = k
    · simp [mapGet, mapSet, h]
    · simp [mapGet, mapSet, h, ih]

theorem mapGet_mapSet_ne {α : Type} (l : List (String × α)) (k k2 : String) (v : α)
    (h : k2 ≠ k) : mapGet (mapSet l k v) k2 = mapGet l k2 := by
  induction l with
  | nil => simp [mapGet, mapSet, Ne.symm h]
  | cons e rest ih =>
    obtain ⟨k1, v1⟩ := e
    by_cases h1 : k1 = k
    · subst h1
      simp [mapGet, mapSet, Ne.symm h]
    · simp only [mapSet, if_neg h1]
      by_cases h2 : k1 = k2
      · simp [mapGet, h2]
      · simp [mapGet, h2, ih]

theorem mapGet_isSome_or {α : Type} (l : List (String × α)) (k k0 : String) (v : α) :
    (mapGet (mapSet l k0 v) k).isSome = ((mapGet l k).isSome || decide (k = k0)) := by
  by_cases h : k = k0
  · subst h
    simp [mapGet_mapSet_self]
  · simp [mapGet_mapSet_ne l k0 k v h, h]

theorem mapGet_mapDelete {α : Type} (l : List (String × α)) (k k2 : String) :
    mapGet (mapDelete l k) k2 = if k2 = k then none else mapGet l k2 := by
  induction l with
  | nil => simp [mapGet, mapDelete]
  | cons e rest ih =>
    obtain ⟨k1, v1⟩ := e
    by_cases h1 : k1 = k
    · subst h1
      have hf : mapDelete ((k1, v1) :: rest) k1 = mapDelete rest k1 := by
        simp [mapDelete, List.filter_cons]
      rw [hf, ih]
      by_cases h2 : k2 = k1
      · simp [h2]
      · simp [mapGet, h2, Ne.symm h2]
    · have hf : mapDelete ((k1, v1) :: rest) k = (k1, v1) :: mapDelete rest k := by
        simp [mapDelete, List.filter_cons, h1]
      rw [hf]
      by_cases h2 : k1 = k2
      · subst h2
        simp [mapGet, h1]
      · simp [mapGet, h2, ih]

theorem mem_keysOf_mapSet {α : Type} (l : List (String × α)) (k m : String) (v : α)
    (h : m ∈ keysOf (mapSet l k v)) : m ∈ keysOf l ∨ m = k := by
  induction l with
  | nil =>
    right
    simpa [keysOf, mapSet] using h
  | cons e rest ih =>
    obtain ⟨k1, v1⟩ := e
    by_cases h1 : k1 = k
    · simp only [mapSet, if_pos h1, keysOf, List.map_cons] at h
      left
      simpa [keysOf] using h
    · simp only [mapSet, if_neg h1, keysOf, List.map_cons, List.mem_cons] at h
      rcases h with h | h
      · left
        simp [keysOf, h]
      · rcases ih h with h2 | h2
        · left
          simp [keysOf] at h2 ⊢
          exact Or.inr h2
        · right
          exact h2

theorem keysOf_mapSet_nodup {α : Type} (l : List (String × α)) (k : String) (v : α)
    (h : (keysOf l).Nodup) : (keysOf (mapSet l k v)).Nodup := by
  induction l with
  | nil => simp [keysOf, mapSet]
  | cons e rest ih =>
    obtain ⟨k1, v1⟩ := e
    simp only [keysOf, List.map_cons, List.nodup_cons] at h
    by_cases h1 : k1 = k
    · simp only [mapSet, if_pos h1, keysOf, List.map_cons, List.nodup_cons]
      exact ⟨by simpa [keysOf] using h.1, h.2⟩
    · simp only [mapSet, if_neg h1, keysOf, List.map_cons, List.nodup_cons]
      refine ⟨?_, ih h.2⟩
      intro hc
      rcases mem_keysOf_mapSet rest k k1 v hc with h2 | h2
      · exact h.1 (by simpa [keysOf] using h2)
      · exact h1 h2

theorem keysOf_mapDelete_nodup {α : Type} (l : List (String × α)) (k : String)
    (h : (keysOf l).Nodup) : (keysOf (mapDelete l k)).Nodup := by
  have hs : (mapDelete l k).Sublist l := by
    unfold mapDelete
    exact List.filter_sublist l
  have hs2 : (keysOf (mapDelete l k)).Sublist (keysOf l) := by
    unfold keysOf
    exact List.Sublist.map (fun e => e.1) hs
  exact List.Nodup.sublist hs2 h

theorem mapGet_isSome_iff_mem {α : Type} (l : List (String × α)) (k : String) :
    (mapGet l k).isSome = true ↔ k ∈ keysOf l := by
  induction l with
  | nil => simp [mapGet, keysOf]
  | cons e rest ih =>
    obtain ⟨k1, v1⟩ := e
    by_cases h1 : k1 = k
    · simp [mapGet, keysOf, h1]
    · simp [mapGet, keysOf, h1, ih, Ne.symm h1]

theorem mapGet_eq_some_mem {α : Type} (l : List (String × α)) (k : String) (v : α)
    (h : mapGet l k = some v) : (k, v) ∈ l := by
  induction l with
  | nil => simp [mapGet] at h
  | cons e rest ih =>
    obtain ⟨k1, v1⟩ := e
    by_cases h1 : k1 = k
    · subst h1
      simp [mapGet] at h
      simp [h]
    · simp only [mapGet, if_neg h1] at h
      exact List.mem_cons_of_mem _ (ih h)

theorem mem_mapGet_of_nodup {α : Type} (l : List (String × α)) (k : String) (v : α)
    (hnd : (keysOf l).Nodup) (h : (k, v) ∈ l) : mapGet l k = some v := by
  induction l with
  | nil => simp at h
  | cons e rest ih =>
    obtain ⟨k1, v1⟩ := e
    simp only [keysOf, List.map_cons, List.nodup_cons] at hnd
    rcases List.mem_cons.mp h with h2 | h2
    · cases h2
      simp [mapGet]
    · have hk : k1 ≠ k := by
        intro hc
        subst hc
        exact hnd.1 (by
          have : (k1, v) ∈ rest := h2
          simpa [keysOf] using List.mem_map_of_mem (fun e => e.1) this)
      simp only [mapGet, if_neg hk]
      exact ih hnd.2 h2

theorem setHas_setAdd_self (l : List String) (n : String) :
    setHas (setAdd l n) n = true := by
  by_cases h : n ∈ l <;> simp [setHas, setAdd, h]

theorem setHas_setAdd_ne (l : List String) (n m : String) (h : m ≠ n) :
    setHas (setAdd l n) m = setHas l m := by
  by_cases h1 : n ∈ l <;> simp [setHas, setAdd, h1, h]

theorem setHas_setDelete_self (l : List String) (n : String) :
    setHas (setDelete l n) n = false := by
  simp [setHas, setDelete]

theorem setHas_setDelete_ne (l : List String) (n m : String) (h : m ≠ n) :
    setHas (setDelete l n) m = setHas l m := by
  simp [setHas, setDelete, h]

/-- C8: updatePlayerPosition on an existing entity returns its new
snapshot and rewrites exactly that entity, setting x and z, setting rot
only when the argument is supplied and keeping it otherwise, and leaving
y, every other entity, the name set and the position cache untouched; on
an unknown id it returns null and leaves the whole store unchanged. -/
theorem updatePlayerPosition_frame (s : GameState) (pid : String) (nx nz : ℤ)
    (nr : Option ℤ) (p : Player) (hp : mapGet s.players pid = some p) :
    (updatePlayerPosition s pid nx nz nr).1 =
      some { id := p.id, x := nx, y := p.y, z := nz, rot := nr.getD p.rot } ∧
    mapGet (updatePlayerPosition s pid nx nz nr).2.players pid =
      some { p with x := nx, z := nz, rot := nr.getD p.rot } ∧
    (∀ k, k ≠ pid →
      mapGet (updatePlayerPosition s pid nx nz nr).2.players k = mapGet s.players k) ∧
    (updatePlayerPosition s pid nx nz nr).2.playerNames = s.playerNames ∧
    (updatePlayerPosition s pid nx nz nr).2.lastKnownPositions = s.lastKnownPositions ∧
    (∀ s2 : GameState, mapGet s2.players pid = none →
      updatePlayerPosition s2 pid nx nz nr = (none, s2)) := by
  refine ⟨?_, ?_, ?_, ?_, ?_, ?_⟩
  · simp [updatePlayerPosition, hp, Player.getState]
  · simp only [updatePlayerPosition, hp]
    exact mapGet_mapSet_self ..
  · intro k hk
    simp only [updatePlayerPosition, hp]
    exact mapGet_mapSet_ne _ _ _ _ hk
  · simp [updatePlayerPosition, hp]
  · simp [updatePlayerPosition, hp]
  · intro s2 h2
    simp [updatePlayerPosition, h2]

/-- Concrete instantiation of updatePlayerPosition_frame: a one-player
store, moving player a to (5, 6) with no rotation argument. -/
theorem updatePlayerPosition_frame_witness :
    mapGet (GameState.mk [("a", ⟨"a", 2, 1, 3, 4, none⟩)] [] [("a", ⟨2, 3, 4⟩)]).players "a" =
      some ⟨"a", 2, 1, 3, 4, none⟩ ∧
    ((updatePlayerPosition ⟨[("a", ⟨"a", 2, 1, 3, 4, none⟩)], [], [("a", ⟨2, 3, 4⟩)]⟩
        "a" 5 6 none).1 = some ⟨"a", 5, 1, 6, 4⟩ ∧
     mapGet (updatePlayerPosition ⟨[("a", ⟨"a", 2, 1, 3, 4, none⟩)], [], [("a", ⟨2, 3, 4⟩)]⟩
        "a" 5 6 none).2.players "a" = some ⟨"a", 5, 1, 6, 4, none⟩ ∧
     (∀ k, k ≠ "a" →
       mapGet (updatePlayerPosition ⟨[("a", ⟨"a", 2, 1, 3, 4, none⟩)], [], [("a", ⟨2, 3, 4⟩)]⟩
          "a" 5 6 none).2.players k =
       mapGet (GameState.mk [("a", ⟨"a", 2, 1, 3, 4, none⟩)] [] [("a", ⟨2, 3, 4⟩)]).players k) ∧
     (updatePlayerPosition ⟨[("a", ⟨"a", 2, 1, 3, 4, none⟩)], [], [("a", ⟨2, 3, 4⟩)]⟩
        "a" 5 6 none).2.playerNames =
       (GameState.mk [("a", ⟨"a", 2, 1, 3, 4, none⟩)] [] [("a", ⟨2, 3, 4⟩)]).playerNames ∧
     (updatePlayerPosition ⟨[("a", ⟨"a", 2, 1, 3, 4, none⟩)], [], [("a", ⟨2, 3, 4⟩)]⟩
        "a" 5 6 none).2.lastKnownPositions =
       (GameState.mk [("a", ⟨"a", 2, 1, 3, 4, none⟩)] [] [("a", ⟨2, 3, 4⟩)]).lastKnownPositions ∧
     (∀ s2 : GameState, mapGet s2.players "a" = none →
       updatePlayerPosition s2 "a" 5 6 none = (none, s2))) :=
  ⟨by decide,
   updatePlayerPosition_frame ⟨[("a", ⟨"a", 2, 1, 3, 4, none⟩)], [], [("a", ⟨2, 3, 4⟩)]⟩
     "a" 5 6 none ⟨"a", 2, 1, 3, 4, none⟩ (by decide)⟩

/-- C7 (amended): a second addPlayer with an id already present returns
the same state as the first call and changes nothing; removePlayer on an
existing id returns true, a second removePlayer on the same id returns
false and changes nothing; and the name freed by the first removal, when
the player had one and it was non-empty, becomes claimable by a different
surviving id (an empty-string name is skipped by the JavaScript truthiness
check in removePlayer, stays in the name set, and remains unclaimable -
see the counterexample). -/
theorem addPlayer_removePlayer_idempotent (s s2 : GameState) (pid pidr : String)
    (a1 a2 a3 b1 b2 b3 : Option ℤ) (r1 r2 q1 q2 : ℤ) (p : Player)
    (hp : mapGet s2.players pidr = some p) :
    (addPlayer (addPlayer s pid a1 a2 a3 r1 r2).2 pid b1 b2 b3 q1 q2).1 =
      (addPlayer s pid a1 a2 a3 r1 r2).1 ∧
    (addPlayer (addPlayer s pid a1 a2 a3 r1 r2).2 pid b1 b2 b3 q1 q2).2 =
      (addPlayer s pid a1 a2 a3 r1 r2).2 ∧
    (removePlayer s2 pidr).1 = true ∧
    removePlayer (removePlayer s2 pidr).2 pidr = (false, (removePlayer s2 pidr).2) ∧
    (∀ n, p.name = some n → n ≠ "" →
      ∀ pid2 q, mapGet (removePlayer s2 pidr).2.players pid2 = some q →
        (setPlayerName (removePlayer s2 pidr).2 pid2 n).1 = true) := by
  have hadd : (addPlayer (addPlayer s pid a1 a2 a3 r1 r2).2 pid b1 b2 b3 q1 q2).1 =
      (addPlayer s pid a1 a2 a3 r1 r2).1 ∧
      (addPlayer (addPlayer s pid a1 a2 a3 r1 r2).2 pid b1 b2 b3 q1 q2).2 =
      (addPlayer s pid a1 a2 a3 r1 r2).2 := by
    cases h : mapGet s.players pid with
    | some p0 =>
      constructor <;> simp [addPlayer, h]
    | none =>
      constructor <;> simp [addPlayer, h, mapGet_mapSet_self, Player.getState]
  have hdel : mapGet (removePlayer s2 pidr).2.players pidr = none := by
    simp only [removePlayer, hp]
    simp [mapGet_mapDelete]
  have hgen : ∀ s3 : GameState, mapGet s3.players pidr = none →
      removePlayer s3 pidr = (false, s3) := by
    intro s3 h3
    simp [removePlayer, h3]
  refine ⟨hadd.1, hadd.2, ?_, hgen _ hdel, ?_⟩
  · simp [removePlayer, hp]
  · intro n hn hne pid2 q hq
    have hnames : (removePlayer s2 pidr).2.playerNames = setDelete s2.playerNames n := by
      simp [removePlayer, hp, hn, hne]
    have havail : setHas (removePlayer s2 pidr).2.playerNames n = false := by
      rw [hnames]
      exact setHas_setDelete_self ..
    simp [setPlayerName, hq, havail]

/-- Concrete instantiation of addPlayer_removePlayer_idempotent: add the
id a twice from the empty store; remove b twice from a two-player store in
which b holds the name bob, then let c claim bob. -/
theorem addPlayer_removePlayer_idempotent_witness :
    mapGet (GameState.mk
        [("b", ⟨"b", 0, 1, 0, 0, some "bob"⟩), ("c", ⟨"c", 2, 1, 2, 0, none⟩)]
        ["bob"] [("b", ⟨0, 0, 0⟩), ("c", ⟨2, 2, 0⟩)]).players "b" =
      some ⟨"b", 0, 1, 0, 0, some "bob"⟩ ∧
    ((addPlayer (addPlayer initialGame "a" none none none 3 4).2 "a" none none none 5 6).1 =
       (addPlayer initialGame "a" none none none 3 4).1 ∧
     (addPlayer (addPlayer initialGame "a" none none none 3 4).2 "a" none none none 5 6).2 =
       (addPlayer initialGame "a" none none none 3 4).2 ∧
     (removePlayer (GameState.mk
        [("b", ⟨"b", 0, 1, 0, 0, some "bob"⟩), ("c", ⟨"c", 2, 1, 2, 0, none⟩)]
        ["bob"] [("b", ⟨0, 0, 0⟩), ("c", ⟨2, 2, 0⟩)]) "b").1 = true ∧
     removePlayer (removePlayer (GameState.mk
        [("b", ⟨"b", 0, 1, 0, 0, some "bob"⟩), ("c", ⟨"c", 2, 1, 2, 0, none⟩)]
        ["bob"] [("b", ⟨0, 0, 0⟩), ("c", ⟨2, 2, 0⟩)]) "b").2 "b" =
       (false, (removePlayer (GameState.mk
        [("b", ⟨"b", 0, 1, 0, 0, some "bob"⟩), ("c", ⟨"c", 2, 1, 2, 0, none⟩)]
        ["bob"] [("b", ⟨0, 0, 0⟩), ("c", ⟨2, 2, 0⟩)]) "b").2) ∧
     (∀ n, (Player.mk "b" 0 1 0 0 (some "bob")).name = some n → n ≠ "" →
       ∀ pid2 q, mapGet (removePlayer (GameState.mk
          [("b", ⟨"b", 0, 1, 0, 0, some "bob"⟩), ("c", ⟨"c", 2, 1, 2, 0, none⟩)]
          ["bob"] [("b", ⟨0, 0, 0⟩), ("c", ⟨2, 2, 0⟩)]) "b").2.players pid2 = some q →
         (setPlayerName (removePlayer (GameState.mk
          [("b", ⟨"b", 0, 1, 0, 0, some "bob"⟩), ("c", ⟨"c", 2, 1, 2, 0, none⟩)]
          ["bob"] [("b", ⟨0, 0, 0⟩), ("c", ⟨2, 2, 0⟩)]) "b").2 pid2 n).1 = true)) :=
  ⟨by decide,
   addPlayer_removePlayer_idempotent initialGame
     (GameState.mk
        [("b", ⟨"b", 0, 1, 0, 0, some "bob"⟩), ("c", ⟨"c", 2, 1, 2, 0, none⟩)]
        ["bob"] [("b", ⟨0, 0, 0⟩), ("c", ⟨2, 2, 0⟩)])
     "a" "b" none none none none none none 3 4 5 6 ⟨"b", 0, 1, 0, 0, some "bob"⟩ (by decide)⟩

/-- C7 counterexample: starting from the constructor state, add p1 and
p2, give p1 the (game-level legal) empty-string name, then remove p1: the
removal returns true, but the JavaScript truthiness check skips releasing
the empty-string name, so p2's later attempt to claim it is rejected -
the freed name did not become claimable by a different id. -/
theorem removePlayer_freedName_cex :
    (setPlayerName
      (addPlayer (addPlayer initialGame "p1" (some 0) (some 0) (some 0) 0 0).2
        "p2" (some 1) (some 1) (some 0) 0 0).2 "p1" "").1 = true ∧
    (removePlayer (setPlayerName
      (addPlayer (addPlayer initialGame "p1" (some 0) (some 0) (some 0) 0 0).2
        "p2" (some 1) (some 1) (some 0) 0 0).2 "p1" "").2 "p1").1 = true ∧
    (setPlayerName (removePlayer (setPlayerName
      (addPlayer (addPlayer initialGame "p1" (some 0) (some 0) (some 0) 0 0).2
        "p2" (some 1) (some 1) (some 0) 0 0).2 "p1" "").2 "p1").2 "p2" "").1 = false ∧
    (mapGet (removePlayer (setPlayerName
      (addPlayer (addPlayer initialGame "p1" (some 0) (some 0) (some 0) 0 0).2
        "p2" (some 1) (some 1) (some 0) 0 0).2 "p1" "").2 "p1").2.players "p2").isSome =
      true := by decide

theorem setPlayerName_accept (s : GameState) (pid n : String) (p : Player)
    (hp : mapGet s.players pid = some p) (hn : setHas s.playerNames n = false) :
    (setPlayerName s pid n).1 = true ∧
    mapGet (setPlayerName s pid n).2.players pid = some { p with name := some n } ∧
    ((p.name = none ∨ p.name = some "") →
      (setPlayerName s pid n).2.playerNames = setAdd s.playerNames n) ∧
    (∀ old, p.name = some old → old ≠ "" →
      (setPlayerName s pid n).2.playerNames = setAdd (setDelete s.playerNames old) n) := by
  refine ⟨?_, ?_, ?_, ?_⟩
  · simp [setPlayerName, hp, hn]
  · simp [setPlayerName, hp, hn, mapGet_mapSet_self]
  · intro h
    rcases h with h | h <;> simp [setPlayerName, hp, hn, h]
  · intro old hold holdne
    simp [setPlayerName, hp, hn, hold, holdne]

/-- C2 (amended): the combined set_name path (server.ts format guard plus
game.ts setPlayerName) accepts exactly when the name field is a non-empty
string, the entity exists, and the name is not already present in the
claimed-name set - presence in the set rejects the request even when the
current holder is the requesting entity itself; every rejection leaves the
store unchanged; and on acceptance the new name is claimed, the entity's
previous name is released from the set provided it is non-empty (an
empty-string previous name is skipped by the JavaScript truthiness check
and stays in the set), and every unrelated name is untouched. -/
theorem handleSetName_spec (s : GameState) (pid : String) (nameField : Option JValue) :
    ((handleSetName s pid nameField).1 = SetNameReply.accepted ↔
      ∃ n, nameField = some (.jstr n) ∧ n ≠ "" ∧
        (mapGet s.players pid).isSome = true ∧ setHas s.playerNames n = false) ∧
    ((handleSetName s pid nameField).1 ≠ SetNameReply.accepted →
      (handleSetName s pid nameField).2 = s) ∧
    (∀ n p, nameField = some (.jstr n) → n ≠ "" → mapGet s.players pid = some p →
      setHas s.playerNames n = false →
      setHas (handleSetName s pid nameField).2.playerNames n = true ∧
      mapGet (handleSetName s pid nameField).2.players pid = some { p with name := some n } ∧
      (∀ old, p.name = some old → old ≠ "" → old ≠ n →
        setHas (handleSetName s pid nameField).2.playerNames old = false) ∧
      (∀ m, m ≠ n → (∀ old, p.name = some old → old ≠ m) →
        setHas (handleSetName s pid nameField).2.playerNames m = setHas s.playerNames m)) := by
  rcases nameField with _ | v
  · simp [handleSetName]
  cases v with
  | jnull => simp [handleSetName]
  | jbool b => simp [handleSetName]
  | jnum x => simp [handleSetName]
  | jarr a => simp [handleSetName]
  | jobj fs => simp [handleSetName]
  | jstr n0 =>
    by_cases hne : n0 = ""
    · subst hne
      simp only [handleSetName, if_pos rfl]
      refine ⟨?_, fun _ => rfl, ?_⟩
      · simp
      · intro n p h1 h2
        injection h1 with h1a
        injection h1a with h1b
        exact absurd h1b.symm h2
    cases hpl : mapGet s.players pid with
    | none =>
      simp [handleSetName, hne, setPlayerName, hpl]
    | some player =>
      cases hhas : setHas s.playerNames n0 with
      | true =>
        simp [handleSetName, hne, setPlayerName, hpl, hhas]
      | false =>
        have hacc := setPlayerName_accept s pid n0 player hpl hhas
        have hfst : (handleSetName s pid (some (.jstr n0))).1 = SetNameReply.accepted := by
          simp [handleSetName, hne, hacc.1]
        have hsnd : (handleSetName s pid (some (.jstr n0))).2 = (setPlayerName s pid n0).2 := by
          simp [handleSetName, hne]
        refine ⟨?_, ?_, ?_⟩
        · rw [hfst]
          simp only [true_iff]
          exact ⟨n0, rfl, hne, by simp [hpl], hhas⟩
        · intro hcon
          exact absurd hfst hcon
        · intro n p heq hne2 hp2 hhas2
          have hn : n = n0 := by
            injection heq with heq2
            injection heq2 with heq3
            exact heq3.symm
          subst hn
          have hpp : p = player := by
            injection hp2 with h
            exact h.symm
          subst hpp
          rw [hsnd]
          refine ⟨?_, hacc.2.1, ?_, ?_⟩
          · rcases hcase : p.name with _ | old
            · rw [hacc.2.2.1 (Or.inl hcase)]
              exact setHas_setAdd_self ..
            · by_cases holde : old = ""
              · rw [hacc.2.2.1 (Or.inr (holde ▸ hcase))]
                exact setHas_setAdd_self ..
              · rw [hacc.2.2.2 old hcase holde]
                exact setHas_setAdd_self ..
          · intro old hold holdne holdn
            rw [hacc.2.2.2 old hold holdne]
            rw [setHas_setAdd_ne _ _ _ holdn]
            exact setHas_setDelete_self ..
          · intro m hmn hmold
            rcases hcase : p.name with _ | old
            · rw [hacc.2.2.1 (Or.inl hcase)]
              exact setHas_setAdd_ne _ _ _ hmn
            · by_cases holde : old = ""
              · rw [hacc.2.2.1 (Or.inr (holde ▸ hcase))]
                exact setHas_setAdd_ne _ _ _ hmn
              · rw [hacc.2.2.2 old hcase holde]
                rw [setHas_setAdd_ne _ _ _ hmn]
                exact setHas_setDelete_ne _ _ _ (fun hc => hmold old hcase hc.symm)

/-- Concrete instantiation of handleSetName_spec: a one-player store with
no names claimed, player p1 requesting the name bob. -/
theorem handleSetName_spec_witness :
    ((handleSetName (GameState.mk [("p1", ⟨"p1", 0, 1, 0, 0, none⟩)] [] [("p1", ⟨0, 0, 0⟩)]) "p1" (some (.jstr "bob"))).1 = SetNameReply.accepted ↔
      ∃ n, (some (JValue.jstr "bob") : Option JValue) = some (.jstr n) ∧ n ≠ "" ∧
        (mapGet (GameState.mk [("p1", ⟨"p1", 0, 1, 0, 0, none⟩)] [] [("p1", ⟨0, 0, 0⟩)]).players "p1").isSome = true ∧ setHas (GameState.mk [("p1", ⟨"p1", 0, 1, 0, 0, none⟩)] [] [("p1", ⟨0, 0, 0⟩)]).playerNames n = false) ∧
    ((handleSetName (GameState.mk [("p1", ⟨"p1", 0, 1, 0, 0, none⟩)] [] [("p1", ⟨0, 0, 0⟩)]) "p1" (some (.jstr "bob"))).1 ≠ SetNameReply.accepted →
      (handleSetName (GameState.mk [("p1", ⟨"p1", 0, 1, 0, 0, none⟩)] [] [("p1", ⟨0, 0, 0⟩)]) "p1" (some (.jstr "bob"))).2 = (GameState.mk [("p1", ⟨"p1", 0, 1, 0, 0, none⟩)] [] [("p1", ⟨0, 0, 0⟩)])) ∧
    (∀ n p, (some (JValue.jstr "bob") : Option JValue) = some (.jstr n) → n ≠ "" →
      mapGet (GameState.mk [("p1", ⟨"p1", 0, 1, 0, 0, none⟩)] [] [("p1", ⟨0, 0, 0⟩)]).players "p1" = some p →
      setHas (GameState.mk [("p1", ⟨"p1", 0, 1, 0, 0, none⟩)] [] [("p1", ⟨0, 0, 0⟩)]).playerNames n = false →
      setHas (handleSetName (GameState.mk [("p1", ⟨"p1", 0, 1, 0, 0, none⟩)] [] [("p1", ⟨0, 0, 0⟩)]) "p1" (some (.jstr "bob"))).2.playerNames n = true ∧
      mapGet (handleSetName (GameState.mk [("p1", ⟨"p1", 0, 1, 0, 0, none⟩)] [] [("p1", ⟨0, 0, 0⟩)]) "p1" (some (.jstr "bob"))).2.players "p1" =
        some { p with name := some n } ∧
      (∀ old, p.name = some old → old ≠ "" → old ≠ n →
        setHas (handleSetName (GameState.mk [("p1", ⟨"p1", 0, 1, 0, 0, none⟩)] [] [("p1", ⟨0, 0, 0⟩)]) "p1" (some (.jstr "bob"))).2.playerNames old = false) ∧
      (∀ m, m ≠ n → (∀ old, p.name = some old → old ≠ m) →
        setHas (handleSetName (GameState.mk [("p1", ⟨"p1", 0, 1, 0, 0, none⟩)] [] [("p1", ⟨0, 0, 0⟩)]) "p1" (some (.jstr "bob"))).2.playerNames m =
          setHas (GameState.mk [("p1", ⟨"p1", 0, 1, 0, 0, none⟩)] [] [("p1", ⟨0, 0, 0⟩)]).playerNames m)) :=
  handleSetName_spec (GameState.mk [("p1", ⟨"p1", 0, 1, 0, 0, none⟩)] [] [("p1", ⟨0, 0, 0⟩)]) "p1" (some (.jstr "bob"))

/-- C2 counterexample.  First store: player p1 exists and itself holds the
name bob, which is a non-empty string, so none of the claim's rejection
conditions applies (in particular bob is not claimed by a DIFFERENT
entity), yet the request is rejected, because game.ts line 72 tests bare
set membership.  Second store: player p1 holds the empty-string name; the
request for x is accepted but the previous name is not released from the
name set, because the truthiness check of game.ts line 77 skips it. -/
theorem handleSetName_cex :
    (handleSetName ⟨[("p1", ⟨"p1", 0, 1, 0, 0, some "bob"⟩)], ["bob"], [("p1", ⟨0, 0, 0⟩)]⟩
        "p1" (some (.jstr "bob"))).1 = SetNameReply.rejected "Name already taken" ∧
    (handleSetName ⟨[("p1", ⟨"p1", 0, 1, 0, 0, some ""⟩)], [""], [("p1", ⟨0, 0, 0⟩)]⟩
        "p1" (some (.jstr "x"))).1 = SetNameReply.accepted ∧
    setHas (handleSetName ⟨[("p1", ⟨"p1", 0, 1, 0, 0, some ""⟩)], [""], [("p1", ⟨0, 0, 0⟩)]⟩
        "p1" (some (.jstr "x"))).2.playerNames "" = true := by decide

theorem mapSet_self_eq {α : Type} (l : List (String × α)) (k : String) (v : α)
    (h : mapGet l k = some v) : mapSet l k v = l := by
  induction l with
  | nil => simp [mapGet] at h
  | cons e rest ih =>
    obtain ⟨k1, v1⟩ := e
    by_cases h1 : k1 = k
    · subst h1
      simp [mapGet] at h
      simp [mapSet, h]
    · simp only [mapGet, if_neg h1] at h
      simp [mapSet, h1, ih h]

theorem updateStep_eq (acc : List PlayerState) (lkp : List (String × Snap))
    (e : String × Player) :
    updateStep (acc, lkp) e =
      ((if changedSince lkp e then acc ++ [e.2.getState] else acc),
       mapSet lkp e.1 (snapOf e.2)) := by
  cases hg : mapGet lkp e.1 with
  | none => simp [updateStep, changedSince, hg]
  | some last =>
    by_cases hc : e.2.x ≠ last.x ∨ e.2.z ≠ last.z ∨ e.2.rot ≠ last.rot
    · simp [updateStep, changedSince, hg, hc]
    · have h1 : e.2.x = last.x := by
        by_contra hx
        exact hc (Or.inl hx)
      have h2 : e.2.z = last.z := by
        by_contra hx
        exact hc (Or.inr (Or.inl hx))
      have h3 : e.2.rot = last.rot := by
        by_contra hx
        exact hc (Or.inr (Or.inr hx))
      have hsnap : snapOf e.2 = last := by
        cases last with
        | mk lx lz lr => simp [snapOf, h1, h2, h3]
      have hset : mapSet lkp e.1 (snapOf e.2) = lkp := by
        rw [hsnap]
        exact mapSet_self_eq lkp e.1 last hg
      simp [updateStep, changedSince, hg, hc, hset]

theorem changedSince_congr (lkp1 lkp2 : List (String × Snap)) (e : String × Player)
    (h : mapGet lkp1 e.1 = mapGet lkp2 e.1) :
    changedSince lkp1 e = changedSince lkp2 e := by
  simp [changedSince, h]

theorem updateFold_spec (l : List (String × Player)) :
    ∀ (acc : List PlayerState) (lkp : List (String × Snap)),
    (keysOf l).Nodup →
    ((l.foldl updateStep (acc, lkp)).1 =
       acc ++ (l.filter (changedSince lkp)).map (fun e => e.2.getState)) ∧
    (∀ pid p, (pid, p) ∈ l →
       mapGet (l.foldl updateStep (acc, lkp)).2 pid = some (snapOf p)) ∧
    (∀ k, k ∉ keysOf l →
       mapGet (l.foldl updateStep (acc, lkp)).2 k = mapGet lkp k) ∧
    ((keysOf lkp).Nodup → (keysOf (l.foldl updateStep (acc, lkp)).2).Nodup) ∧
    (∀ k, (mapGet (l.foldl updateStep (acc, lkp)).2 k).isSome = true ↔
       ((mapGet lkp k).isSome = true ∨ k ∈ keysOf l)) := by
  induction l with
  | nil =>
    intro acc lkp hnd
    simp [keysOf]
  | cons e rest ih =>
    intro acc lkp hnd
    obtain ⟨pid, p⟩ := e
    have hnd2 : pid ∉ keysOf rest ∧ (keysOf rest).Nodup := by
      simpa [keysOf] using hnd
    have hfold : ((pid, p) :: rest).foldl updateStep (acc, lkp) =
        rest.foldl updateStep
          ((if changedSince lkp (pid, p) then acc ++ [p.getState] else acc),
           mapSet lkp pid (snapOf p)) := by
      rw [List.foldl_cons, updateStep_eq]
    have hcongr : ∀ e2 ∈ rest, changedSince (mapSet lkp pid (snapOf p)) e2 =
        changedSince lkp e2 := by
      intro e2 he2
      apply changedSince_congr
      apply mapGet_mapSet_ne
      intro hc
      exact hnd2.1 (hc ▸ List.mem_map_of_mem (fun x => x.1) he2)
    obtain ⟨ih1, ih2, ih3, ih4, ih5⟩ :=
      ih (if changedSince lkp (pid, p) then acc ++ [p.getState] else acc)
         (mapSet lkp pid (snapOf p)) hnd2.2
    refine ⟨?_, ?_, ?_, ?_, ?_⟩
    · rw [hfold, ih1]
      have hfc : rest.filter (changedSince (mapSet lkp pid (snapOf p))) =
          rest.filter (changedSince lkp) := List.filter_congr hcongr
      by_cases hchg : changedSince lkp (pid, p) = true
      · simp [hchg, List.filter_cons, hfc]
      · simp only [Bool.not_eq_true] at hchg
        simp [hchg, List.filter_cons, hfc]
    · intro pid2 p2 hmem
      rw [hfold]
      rcases List.mem_cons.mp hmem with hmem | hmem
      · obtain ⟨hpe, hpp⟩ := Prod.mk.injEq .. ▸ hmem
        subst hpe
        subst hpp
        rw [ih3 pid2 hnd2.1]
        exact mapGet_mapSet_self ..
      · exact ih2 pid2 p2 hmem
    · intro k hk
      have hk1 : k ≠ pid := by
        intro hc
        exact hk (by simp [keysOf, hc])
      have hk2 : k ∉ keysOf rest := by
        intro hc
        exact hk (by simp [keysOf] at hc ⊢; exact Or.inr hc)
      rw [hfold, ih3 k hk2]
      exact mapGet_mapSet_ne _ _ _ _ hk1
    · intro hlkp
      rw [hfold]
      exact ih4 (keysOf_mapSet_nodup _ _ _ hlkp)
    · intro k
      rw [hfold]
      rw [ih5 k]
      have hor : (mapGet (mapSet lkp pid (snapOf p)) k).isSome = true ↔
          ((mapGet lkp k).isSome = true ∨ k = pid) := by
        rw [mapGet_isSome_or]
        simp
      rw [hor]
      simp [keysOf]
      tauto

/-- C3: getUpdatedPlayerStates returns, in map order, exactly the states
of the live entities whose current x, z or rotation differs from their
lastKnownPositions entry or that have no entry; it touches nothing but the
lastKnownPositions cache, rewriting the entry of every live entity to its
current values; and a second call with no intervening mutation returns the
empty sequence. -/
theorem getUpdatedPlayerStates_spec (s : GameState) (hnd : (keysOf s.players).Nodup) :
    (getUpdatedPlayerStates s).1 =
      (s.players.filter (changedSince s.lastKnownPositions)).map (fun e => e.2.getState) ∧
    (getUpdatedPlayerStates s).2.players = s.players ∧
    (getUpdatedPlayerStates s).2.playerNames = s.playerNames ∧
    (∀ pid p, (pid, p) ∈ s.players →
      mapGet (getUpdatedPlayerStates s).2.lastKnownPositions pid = some (snapOf p)) ∧
    (getUpdatedPlayerStates (getUpdatedPlayerStates s).2).1 = [] := by
  obtain ⟨h1, h2, h3, h4, h5⟩ := updateFold_spec s.players [] s.lastKnownPositions hnd
  have hpl : (getUpdatedPlayerStates s).2.players = s.players := rfl
  have hlkp : (getUpdatedPlayerStates s).2.lastKnownPositions =
      (s.players.foldl updateStep ([], s.lastKnownPositions)).2 := rfl
  refine ⟨by simpa [getUpdatedPlayerStates] using h1, rfl, rfl, ?_, ?_⟩
  · intro pid p hm
    rw [hlkp]
    exact h2 pid p hm
  · have hall : ∀ e ∈ s.players,
        changedSince (getUpdatedPlayerStates s).2.lastKnownPositions e = false := by
      intro e he
      have hg : mapGet (getUpdatedPlayerStates s).2.lastKnownPositions e.1 =
          some (snapOf e.2) := by
        rw [hlkp]
        exact h2 e.1 e.2 he
      simp [changedSince, hg, snapOf]
    obtain ⟨g1, g2, g3, g4, g5⟩ := updateFold_spec (getUpdatedPlayerStates s).2.players []
      (getUpdatedPlayerStates s).2.lastKnownPositions (by rw [hpl]; exact hnd)
    have hfil : (getUpdatedPlayerStates s).2.players.filter
        (changedSince (getUpdatedPlayerStates s).2.lastKnownPositions) = [] := by
      rw [hpl]
      refine List.filter_eq_nil_iff.mpr ?_
      intro a ha
      rw [hall a ha]
      exact Bool.false_ne_true
    have hres : (getUpdatedPlayerStates (getUpdatedPlayerStates s).2).1 =
        [] ++ ((getUpdatedPlayerStates s).2.players.filter
          (changedSince (getUpdatedPlayerStates s).2.lastKnownPositions)).map
            (fun e => e.2.getState) := g1
    rw [hres, hfil]
    rfl

/-- Concrete instantiation of getUpdatedPlayerStates_spec: player a
matches its cache entry, player b differs from its cache entry. -/
theorem getUpdatedPlayerStates_spec_witness :
    (keysOf (GameState.mk
       [("a", ⟨"a", 1, 1, 2, 3, none⟩), ("b", ⟨"b", 4, 1, 5, 6, none⟩)] []
       [("a", ⟨1, 2, 3⟩), ("b", ⟨9, 9, 9⟩)]).players).Nodup ∧
    ((getUpdatedPlayerStates ⟨[("a", ⟨"a", 1, 1, 2, 3, none⟩), ("b", ⟨"b", 4, 1, 5, 6, none⟩)],
        [], [("a", ⟨1, 2, 3⟩), ("b", ⟨9, 9, 9⟩)]⟩).1 =
      ((GameState.mk [("a", ⟨"a", 1, 1, 2, 3, none⟩), ("b", ⟨"b", 4, 1, 5, 6, none⟩)] []
        [("a", ⟨1, 2, 3⟩), ("b", ⟨9, 9, 9⟩)]).players.filter
          (changedSince [("a", ⟨1, 2, 3⟩), ("b", ⟨9, 9, 9⟩)])).map (fun e => e.2.getState) ∧
     (getUpdatedPlayerStates ⟨[("a", ⟨"a", 1, 1, 2, 3, none⟩), ("b", ⟨"b", 4, 1, 5, 6, none⟩)],
        [], [("a", ⟨1, 2, 3⟩), ("b", ⟨9, 9, 9⟩)]⟩).2.players =
      (GameState.mk [("a", ⟨"a", 1, 1, 2, 3, none⟩), ("b", ⟨"b", 4, 1, 5, 6, none⟩)] []
        [("a", ⟨1, 2, 3⟩), ("b", ⟨9, 9, 9⟩)]).players ∧
     (getUpdatedPlayerStates ⟨[("a", ⟨"a", 1, 1, 2, 3, none⟩), ("b", ⟨"b", 4, 1, 5, 6, none⟩)],
        [], [("a", ⟨1, 2, 3⟩), ("b", ⟨9, 9, 9⟩)]⟩).2.playerNames =
      (GameState.mk [("a", ⟨"a", 1, 1, 2, 3, none⟩), ("b", ⟨"b", 4, 1, 5, 6, none⟩)] []
        [("a", ⟨1, 2, 3⟩), ("b", ⟨9, 9, 9⟩)]).playerNames ∧
     (∀ pid p, (pid, p) ∈ (GameState.mk
          [("a", ⟨"a", 1, 1, 2, 3, none⟩), ("b", ⟨"b", 4, 1, 5, 6, none⟩)] []
          [("a", ⟨1, 2, 3⟩), ("b", ⟨9, 9, 9⟩)]).players →
       mapGet (getUpdatedPlayerStates ⟨[("a", ⟨"a", 1, 1, 2, 3, none⟩),
          ("b", ⟨"b", 4, 1, 5, 6, none⟩)], [],
          [("a", ⟨1, 2, 3⟩), ("b", ⟨9, 9, 9⟩)]⟩).2.lastKnownPositions pid = some (snapOf p)) ∧
     (getUpdatedPlayerStates (getUpdatedPlayerStates
        ⟨[("a", ⟨"a", 1, 1, 2, 3, none⟩), ("b", ⟨"b", 4, 1, 5, 6, none⟩)], [],
         [("a", ⟨1, 2, 3⟩), ("b", ⟨9, 9, 9⟩)]⟩).2).1 = []) :=
  ⟨by decide,
   getUpdatedPlayerStates_spec
     ⟨[("a", ⟨"a", 1, 1, 2, 3, none⟩), ("b", ⟨"b", 4, 1, 5, 6, none⟩)], [],
      [("a", ⟨1, 2, 3⟩), ("b", ⟨9, 9, 9⟩)]⟩ (by decide)⟩

theorem storeInv_init : StoreInv initialGame := by
  refine ⟨?_, ?_, ?_, ?_, ?_⟩ <;> simp [initialGame, keysOf, mapGet]

theorem storeInv_addPlayer (s : GameState) (pid : String) (ix iz irot : Option ℤ)
    (rx rz : ℤ) (h : StoreInv s) : StoreInv (addPlayer s pid ix iz irot rx rz).2 := by
  cases hg : mapGet s.players pid with
  | some p => simpa [addPlayer, hg] using h
  | none =>
    refine ⟨?_, ?_, ?_, ?_, ?_⟩
    · simp only [addPlayer, hg]
      exact keysOf_mapSet_nodup _ _ _ h.playersNodup
    · simp only [addPlayer, hg]
      exact keysOf_mapSet_nodup _ _ _ h.lkpNodup
    · intro k
      simp only [addPlayer, hg]
      rw [mapGet_isSome_or, mapGet_isSome_or, h.keysMatch k]
    · intro pid2 p2 n hp2 hn
      simp only [addPlayer, hg] at hp2 ⊢
      by_cases hk : pid2 = pid
      · subst hk
        rw [mapGet_mapSet_self] at hp2
        injection hp2 with hp2
        rw [← hp2] at hn
        simp at hn
      · rw [mapGet_mapSet_ne _ _ _ _ hk] at hp2
        exact h.heldMem pid2 p2 n hp2 hn
    · intro pid1 pid2 p1 p2 n hp1 hp2 hn1 hn2
      simp only [addPlayer, hg] at hp1 hp2
      by_cases hk1 : pid1 = pid
      · subst hk1
        rw [mapGet_mapSet_self] at hp1
        injection hp1 with hp1
        rw [← hp1] at hn1
        simp at hn1
      · rw [mapGet_mapSet_ne _ _ _ _ hk1] at hp1
        by_cases hk2 : pid2 = pid
        · subst hk2
          rw [mapGet_mapSet_self] at hp2
          injection hp2 with hp2
          rw [← hp2] at hn2
          simp at hn2
        · rw [mapGet_mapSet_ne _ _ _ _ hk2] at hp2
          exact h.uniqueNames pid1 pid2 p1 p2 n hp1 hp2 hn1 hn2

theorem storeInv_removePlayer (s : GameState) (pid : String) (h : StoreInv s) :
    StoreInv (removePlayer s pid).2 := by
  cases hg : mapGet s.players pid with
  | none => simpa [removePlayer, hg] using h
  | some player =>
    have hpl : (removePlayer s pid).2.players = mapDelete s.players pid := by
      simp [removePlayer, hg]
    have hlk : (removePlayer s pid).2.lastKnownPositions =
        mapDelete s.lastKnownPositions pid := by
      simp [removePlayer, hg]
    have hnm : (removePlayer s pid).2.playerNames = s.playerNames ∨
        ∃ old, player.name = some old ∧ old ≠ "" ∧
          (removePlayer s pid).2.playerNames = setDelete s.playerNames old := by
      rcases hname : player.name with _ | old
      · left
        simp [removePlayer, hg, hname]
      · by_cases holde : old = ""
        · left
          simp [removePlayer, hg, hname, holde]
        · right
          exact ⟨old, rfl, holde, by simp [removePlayer, hg, hname, holde]⟩
    refine ⟨?_, ?_, ?_, ?_, ?_⟩
    · rw [hpl]
      exact keysOf_mapDelete_nodup _ _ h.playersNodup
    · rw [hlk]
      exact keysOf_mapDelete_nodup _ _ h.lkpNodup
    · intro k
      rw [hpl, hlk, mapGet_mapDelete, mapGet_mapDelete]
      by_cases hk : k = pid
      · simp [hk]
      · simp only [if_neg hk]
        exact h.keysMatch k
    · intro pid2 p2 n hp2 hn
      rw [hpl, mapGet_mapDelete] at hp2
      by_cases hk : pid2 = pid
      · rw [if_pos hk] at hp2
        exact absurd hp2 (by simp)
      · rw [if_neg hk] at hp2
        have hmem := h.heldMem pid2 p2 n hp2 hn
        rcases hnm with heq | ⟨old, holdname, holdne, heq⟩
        · rw [heq]
          exact hmem
        · rw [heq]
          have hno : n ≠ old := by
            intro hc
            subst hc
            exact hk (h.uniqueNames pid2 pid p2 player n hp2 hg hn holdname)
          rw [setHas_setDelete_ne _ _ _ hno]
          exact hmem
    · intro pid1 pid2 p1 p2 n hp1 hp2 hn1 hn2
      rw [hpl, mapGet_mapDelete] at hp1 hp2
      by_cases hk1 : pid1 = pid
      · rw [if_pos hk1] at hp1
        exact absurd hp1 (by simp)
      · rw [if_neg hk1] at hp1
        by_cases hk2 : pid2 = pid
        · rw [if_pos hk2] at hp2
          exact absurd hp2 (by simp)
        · rw [if_neg hk2] at hp2
          exact h.uniqueNames pid1 pid2 p1 p2 n hp1 hp2 hn1 hn2

theorem storeInv_updatePlayerPosition (s : GameState) (pid : String) (nx nz : ℤ)
    (nr : Option ℤ) (h : StoreInv s) : StoreInv (updatePlayerPosition s pid nx nz nr).2 := by
  cases hg : mapGet s.players pid with
  | none => simpa [updatePlayerPosition, hg] using h
  | some player =>
    have hpl : (updatePlayerPosition s pid nx nz nr).2.players =
        mapSet s.players pid { player with x := nx, z := nz, rot := nr.getD player.rot } := by
      simp [updatePlayerPosition, hg]
    have hlk : (updatePlayerPosition s pid nx nz nr).2.lastKnownPositions =
        s.lastKnownPositions := by
      simp [updatePlayerPosition, hg]
    have hnmeq : (updatePlayerPosition s pid nx nz nr).2.playerNames = s.playerNames := by
      simp [updatePlayerPosition, hg]
    refine ⟨?_, ?_, ?_, ?_, ?_⟩
    · rw [hpl]
      exact keysOf_mapSet_nodup _ _ _ h.playersNodup
    · rw [hlk]
      exact h.lkpNodup
    · intro k
      rw [hpl, hlk, mapGet_isSome_or]
      by_cases hk : k = pid
      · subst hk
        rw [h.keysMatch k, hg]
        simp
      · have hd : decide (k = pid) = false := by simp [hk]
        rw [hd, Bool.or_false]
        exact h.keysMatch k
    · intro pid2 p2 n hp2 hn
      rw [hpl] at hp2
      rw [hnmeq]
      by_cases hk : pid2 = pid
      · subst hk
        rw [mapGet_mapSet_self] at hp2
        injection hp2 with hp2
        subst hp2
        exact h.heldMem pid2 player n hg hn
      · rw [mapGet_mapSet_ne _ _ _ _ hk] at hp2
        exact h.heldMem pid2 p2 n hp2 hn
    · intro pid1 pid2 p1 p2 n hp1 hp2 hn1 hn2
      rw [hpl] at hp1 hp2
      by_cases hk1 : pid1 = pid
      · subst hk1
        rw [mapGet_mapSet_self] at hp1
        injection hp1 with hp1
        subst hp1
        by_cases hk2 : pid2 = pid1
        · exact hk2.symm
        · rw [mapGet_mapSet_ne _ _ _ _ hk2] at hp2
          exact h.uniqueNames pid1 pid2 player p2 n hg hp2 hn1 hn2
      · rw [mapGet_mapSet_ne _ _ _ _ hk1] at hp1
        by_cases hk2 : pid2 = pid
        · subst hk2
          rw [mapGet_mapSet_self] at hp2
          injection hp2 with hp2
          subst hp2
          exact h.uniqueNames pid1 pid2 p1 player n hp1 hg hn1 hn2
        · rw [mapGet_mapSet_ne _ _ _ _ hk2] at hp2
          exact h.uniqueNames pid1 pid2 p1 p2 n hp1 hp2 hn1 hn2

theorem storeInv_setPlayerName (s : GameState) (pid n : String) (h : StoreInv s) :
    StoreInv (setPlayerName s pid n).2 := by
  cases hg : mapGet s.players pid with
  | none => simpa [setPlayerName, hg] using h
  | some player =>
    cases hhas : setHas s.playerNames n with
    | true => simpa [setPlayerName, hg, hhas] using h
    | false =>
      have hacc := setPlayerName_accept s pid n player hg hhas
      have hpl : (setPlayerName s pid n).2.players =
          mapSet s.players pid { player with name := some n } := by
        simp [setPlayerName, hg, hhas]
      have hlk : (setPlayerName s pid n).2.lastKnownPositions = s.lastKnownPositions := by
        simp [setPlayerName, hg, hhas]
      have hnm : (setPlayerName s pid n).2.playerNames = setAdd s.playerNames n ∨
          ∃ old, player.name = some old ∧ old ≠ "" ∧
            (setPlayerName s pid n).2.playerNames =
              setAdd (setDelete s.playerNames old) n := by
        rcases hname : player.name with _ | old
        · exact Or.inl (hacc.2.2.1 (Or.inl hname))
        · by_cases holde : old = ""
          · exact Or.inl (hacc.2.2.1 (Or.inr (holde ▸ hname)))
          · exact Or.inr ⟨old, rfl, holde, hacc.2.2.2 old hname holde⟩
      refine ⟨?_, ?_, ?_, ?_, ?_⟩
      · rw [hpl]
        exact keysOf_mapSet_nodup _ _ _ h.playersNodup
      · rw [hlk]
        exact h.lkpNodup
      · intro k
        rw [hpl, hlk, mapGet_isSome_or]
        by_cases hk : k = pid
        · subst hk
          rw [h.keysMatch k, hg]
          simp
        · have hd : decide (k = pid) = false := by simp [hk]
          rw [hd, Bool.or_false]
          exact h.keysMatch k
      · intro pid2 p2 n2 hp2 hn2
        rw [hpl] at hp2
        by_cases hk : pid2 = pid
        · subst hk
          rw [mapGet_mapSet_self] at hp2
          injection hp2 with hp2
          subst hp2
          simp only [] at hn2
          have hn2n : n2 = n := by
            have : some n = some n2 := hn2
            injection this with hx
            exact hx.symm
          subst hn2n
          rcases hnm with heq | ⟨old, holdname, holdne, heq⟩
          · rw [heq]
            exact setHas_setAdd_self ..
          · rw [heq]
            exact setHas_setAdd_self ..
        · rw [mapGet_mapSet_ne _ _ _ _ hk] at hp2
          have hmem := h.heldMem pid2 p2 n2 hp2 hn2
          have hn2n : n2 ≠ n := by
            intro hc
            subst hc
            rw [hmem] at hhas
            simp at hhas
          rcases hnm with heq | ⟨old, holdname, holdne, heq⟩
          · rw [heq, setHas_setAdd_ne _ _ _ hn2n]
            exact hmem
          · have hn2old : n2 ≠ old := by
              intro hc
              subst hc
              exact hk (h.uniqueNames pid2 pid p2 player n2 hp2 hg hn2 holdname)
            rw [heq, setHas_setAdd_ne _ _ _ hn2n, setHas_setDelete_ne _ _ _ hn2old]
            exact hmem
      · intro pid1 pid2 p1 p2 n2 hp1 hp2 hn1 hn2
        rw [hpl] at hp1 hp2
        by_cases hk1 : pid1 = pid
        · by_cases hk2 : pid2 = pid
          · rw [hk1, hk2]
          · subst hk1
            rw [mapGet_mapSet_self] at hp1
            rw [mapGet_mapSet_ne _ _ _ _ hk2] at hp2
            injection hp1 with hp1
            subst hp1
            have hn2n : n2 = n := by
              have : some n = some n2 := hn1
              injection this with hx
              exact hx.symm
            subst hn2n
            have hmem := h.heldMem pid2 p2 n2 hp2 hn2
            rw [hmem] at hhas
            simp at hhas
        · by_cases hk2 : pid2 = pid
          · subst hk2
            rw [mapGet_mapSet_self] at hp2
            rw [mapGet_mapSet_ne _ _ _ _ hk1] at hp1
            injection hp2 with hp2
            subst hp2
            have hn2n : n2 = n := by
              have : some n = some n2 := hn2
              injection this with hx
              exact hx.symm
            subst hn2n
            have hmem := h.heldMem pid1 p1 n2 hp1 hn1
            rw [hmem] at hhas
            simp at hhas
          · rw [mapGet_mapSet_ne _ _ _ _ hk1] at hp1
            rw [mapGet_mapSet_ne _ _ _ _ hk2] at hp2
            exact h.uniqueNames pid1 pid2 p1 p2 n2 hp1 hp2 hn1 hn2

theorem storeInv_getUpdated (s : GameState) (h : StoreInv s) :
    StoreInv (getUpdatedPlayerStates s).2 := by
  obtain ⟨f1, f2, f3, f4, f5⟩ := updateFold_spec s.players [] s.lastKnownPositions h.playersNodup
  have hpl : (getUpdatedPlayerStates s).2.players = s.players := rfl
  have hnmeq : (getUpdatedPlayerStates s).2.playerNames = s.playerNames := rfl
  have hlk : (getUpdatedPlayerStates s).2.lastKnownPositions =
      (s.players.foldl updateStep ([], s.lastKnownPositions)).2 := rfl
  refine ⟨?_, ?_, ?_, ?_, ?_⟩
  · rw [hpl]
    exact h.playersNodup
  · rw [hlk]
    exact f4 h.lkpNodup
  · intro k
    rw [hpl, hlk]
    have hiff := f5 k
    cases hb : (mapGet s.players k).isSome with
    | true =>
      have hmem : k ∈ keysOf s.players := (mapGet_isSome_iff_mem _ _).mp hb
      rw [hiff.mpr (Or.inr hmem)]
    | false =>
      cases hx : (mapGet (s.players.foldl updateStep ([], s.lastKnownPositions)).2 k).isSome with
      | false => rfl
      | true =>
        exfalso
        rcases hiff.mp hx with hc | hc
        · rw [h.keysMatch k, hb] at hc
          simp at hc
        · rw [(mapGet_isSome_iff_mem _ _).mpr hc] at hb
          simp at hb
  · intro pid2 p2 n hp2 hn
    rw [hpl] at hp2
    rw [hnmeq]
    exact h.heldMem pid2 p2 n hp2 hn
  · intro pid1 pid2 p1 p2 n hp1 hp2 hn1 hn2
    rw [hpl] at hp1 hp2
    exact h.uniqueNames pid1 pid2 p1 p2 n hp1 hp2 hn1 hn2

theorem reachable_inv (s : GameState) (h : Reachable s) : StoreInv s := by
  induction h with
  | init => exact storeInv_init
  | add s2 pid ix iz irot rx rz hr ih => exact storeInv_addPlayer s2 pid ix iz irot rx rz ih
  | remove s2 pid hr ih => exact storeInv_removePlayer s2 pid ih
  | move s2 pid nx nz nr hr ih => exact storeInv_updatePlayerPosition s2 pid nx nz nr ih
  | rename s2 pid n hr ih => exact storeInv_setPlayerName s2 pid n ih
  | snapshot s2 hr ih => exact storeInv_getUpdated s2 ih

/-- C4 (amended): in every reachable store state at most one live entity
holds any given name; and when two distinct existing entities attempt
setPlayerName with the same name, PROVIDED the name is not already in the
claimed-name set, exactly one call returns accepted and the other
rejected, whichever of the two goes first (when the name is already
claimed, both calls are rejected - see the counterexample). -/
theorem nameUniqueness_invariant (s : GameState) (hr : Reachable s) :
    (∀ pid1 pid2 p1 p2 n, mapGet s.players pid1 = some p1 →
      mapGet s.players pid2 = some p2 → p1.name = some n → p2.name = some n →
      pid1 = pid2) ∧
    (∀ pid1 pid2 p1 p2 n, pid1 ≠ pid2 →
      mapGet s.players pid1 = some p1 → mapGet s.players pid2 = some p2 →
      setHas s.playerNames n = false →
      (setPlayerName s pid1 n).1 = true ∧
      (setPlayerName (setPlayerName s pid1 n).2 pid2 n).1 = false) := by
  have hinv := reachable_inv s hr
  refine ⟨hinv.uniqueNames, ?_⟩
  intro pid1 pid2 p1 p2 n hne hp1 hp2 hn
  have hacc := setPlayerName_accept s pid1 n p1 hp1 hn
  have hp2b : mapGet (setPlayerName s pid1 n).2.players pid2 = some p2 := by
    have hpl : (setPlayerName s pid1 n).2.players =
        mapSet s.players pid1 { p1 with name := some n } := by
      simp [setPlayerName, hp1, hn]
    rw [hpl, mapGet_mapSet_ne _ _ _ _ (Ne.symm hne)]
    exact hp2
  have hhas2 : setHas (setPlayerName s pid1 n).2.playerNames n = true := by
    rcases hname : p1.name with _ | old
    · rw [hacc.2.2.1 (Or.inl hname)]
      exact setHas_setAdd_self ..
    · by_cases holde : old = ""
      · rw [hacc.2.2.1 (Or.inr (holde ▸ hname))]
        exact setHas_setAdd_self ..
      · rw [hacc.2.2.2 old hname holde]
        exact setHas_setAdd_self ..
  refine ⟨hacc.1, ?_⟩
  have hrej : ∀ s3 : GameState, ∀ q : Player, mapGet s3.players pid2 = some q →
      setHas s3.playerNames n = true → (setPlayerName s3 pid2 n).1 = false := by
    intro s3 q hq hh
    simp [setPlayerName, hq, hh]
  exact hrej _ p2 hp2b hhas2

/-- Concrete instantiation of nameUniqueness_invariant at the reachable
two-player store built by adding p1 and p2, with p1 and p2 racing for the
fresh name bob. -/
theorem nameUniqueness_invariant_witness :
    (∀ pid1 pid2 p1 p2 n, mapGet (addPlayer (addPlayer initialGame "p1" (some 0) (some 0) (some 0) 0 0).2 "p2" (some 1) (some 1) (some 0) 0 0).2.players pid1 = some p1 →
      mapGet (addPlayer (addPlayer initialGame "p1" (some 0) (some 0) (some 0) 0 0).2 "p2" (some 1) (some 1) (some 0) 0 0).2.players pid2 = some p2 → p1.name = some n → p2.name = some n →
      pid1 = pid2) ∧
    (∀ pid1 pid2 p1 p2 n, pid1 ≠ pid2 →
      mapGet (addPlayer (addPlayer initialGame "p1" (some 0) (some 0) (some 0) 0 0).2 "p2" (some 1) (some 1) (some 0) 0 0).2.players pid1 = some p1 → mapGet (addPlayer (addPlayer initialGame "p1" (some 0) (some 0) (some 0) 0 0).2 "p2" (some 1) (some 1) (some 0) 0 0).2.players pid2 = some p2 →
      setHas (addPlayer (addPlayer initialGame "p1" (some 0) (some 0) (some 0) 0 0).2 "p2" (some 1) (some 1) (some 0) 0 0).2.playerNames n = false →
      (setPlayerName (addPlayer (addPlayer initialGame "p1" (some 0) (some 0) (some 0) 0 0).2 "p2" (some 1) (some 1) (some 0) 0 0).2 pid1 n).1 = true ∧
      (setPlayerName (setPlayerName (addPlayer (addPlayer initialGame "p1" (some 0) (some 0) (some 0) 0 0).2 "p2" (some 1) (some 1) (some 0) 0 0).2 pid1 n).2 pid2 n).1 = false) :=
  nameUniqueness_invariant (addPlayer (addPlayer initialGame "p1" (some 0) (some 0) (some 0) 0 0).2 "p2" (some 1) (some 1) (some 0) 0 0).2
    (Reachable.add (addPlayer initialGame "p1" (some 0) (some 0) (some 0) 0 0).2
      "p2" (some 1) (some 1) (some 0) 0 0
      (Reachable.add initialGame "p1" (some 0) (some 0) (some 0) 0 0 Reachable.init))

/-- C4 counterexample: in the reachable store where p1, p2 and p3 exist
and p3 already holds the name n, the two distinct existing entities p1 and
p2 both attempt the name n: both calls are rejected, in either order,
contradicting the claim that exactly one of the two calls is accepted. -/
theorem setPlayerName_exactlyOne_cex :
    (mapGet (setPlayerName (addPlayer (addPlayer (addPlayer initialGame "p1" (some 0) (some 0) (some 0) 0 0).2 "p2" (some 1) (some 1) (some 0) 0 0).2 "p3" (some 2) (some 2) (some 0) 0 0).2 "p3" "n").2.players "p1").isSome = true ∧
    (mapGet (setPlayerName (addPlayer (addPlayer (addPlayer initialGame "p1" (some 0) (some 0) (some 0) 0 0).2 "p2" (some 1) (some 1) (some 0) 0 0).2 "p3" (some 2) (some 2) (some 0) 0 0).2 "p3" "n").2.players "p2").isSome = true ∧
    (setPlayerName (setPlayerName (addPlayer (addPlayer (addPlayer initialGame "p1" (some 0) (some 0) (some 0) 0 0).2 "p2" (some 1) (some 1) (some 0) 0 0).2 "p3" (some 2) (some 2) (some 0) 0 0).2 "p3" "n").2 "p1" "n").1 = false ∧
    (setPlayerName (setPlayerName (setPlayerName (addPlayer (addPlayer (addPlayer initialGame "p1" (some 0) (some 0) (some 0) 0 0).2 "p2" (some 1) (some 1) (some 0) 0 0).2 "p3" (some 2) (some 2) (some 0) 0 0).2 "p3" "n").2 "p1" "n").2 "p2" "n").1 = false ∧
    (setPlayerName (setPlayerName (addPlayer (addPlayer (addPlayer initialGame "p1" (some 0) (some 0) (some 0) 0 0).2 "p2" (some 1) (some 1) (some 0) 0 0).2 "p3" (some 2) (some 2) (some 0) 0 0).2 "p3" "n").2 "p2" "n").1 = false ∧
    (setPlayerName (setPlayerName (setPlayerName (addPlayer (addPlayer (addPlayer initialGame "p1" (some 0) (some 0) (some 0) 0 0).2 "p2" (some 1) (some 1) (some 0) 0 0).2 "p3" (some 2) (some 2) (some 0) 0 0).2 "p3" "n").2 "p2" "n").2 "p1" "n").1 = false := by decide

/-- C9: in every reachable store state the lastKnownPositions cache has an
entry exactly for the live entities (addPlayer seeds it, removePlayer
drops it, and every operation preserves the key-set equality), each key at
most once; and immediately after a getUpdatedPlayerStates pass with no
interleaved mutation, the cached entry equals the entity's current x, z
and rotation for every live entity. -/
theorem snapshotCache_invariant (s : GameState) (hr : Reachable s) :
    (∀ k, (mapGet s.lastKnownPositions k).isSome = (mapGet s.players k).isSome) ∧
    (keysOf s.lastKnownPositions).Nodup ∧
    (keysOf s.players).Nodup ∧
    (∀ pid p, (pid, p) ∈ (getUpdatedPlayerStates s).2.players →
      mapGet (getUpdatedPlayerStates s).2.lastKnownPositions pid = some (snapOf p)) := by
  have hinv := reachable_inv s hr
  obtain ⟨f1, f2, f3, f4, f5⟩ :=
    updateFold_spec s.players [] s.lastKnownPositions hinv.playersNodup
  refine ⟨hinv.keysMatch, hinv.lkpNodup, hinv.playersNodup, ?_⟩
  intro pid p hm
  exact f2 pid p hm

/-- Concrete instantiation of snapshotCache_invariant at the reachable
one-player store built by adding p1. -/
theorem snapshotCache_invariant_witness :
    (∀ k, (mapGet (addPlayer initialGame "p1" (some 0) (some 0) (some 0) 0 0).2.lastKnownPositions k).isSome = (mapGet (addPlayer initialGame "p1" (some 0) (some 0) (some 0) 0 0).2.players k).isSome) ∧
    (keysOf (addPlayer initialGame "p1" (some 0) (some 0) (some 0) 0 0).2.lastKnownPositions).Nodup ∧
    (keysOf (addPlayer initialGame "p1" (some 0) (some 0) (some 0) 0 0).2.players).Nodup ∧
    (∀ pid p, (pid, p) ∈ (getUpdatedPlayerStates (addPlayer initialGame "p1" (some 0) (some 0) (some 0) 0 0).2).2.players →
      mapGet (getUpdatedPlayerStates (addPlayer initialGame "p1" (some 0) (some 0) (some 0) 0 0).2).2.lastKnownPositions pid = some (snapOf p)) :=
  snapshotCache_invariant (addPlayer initialGame "p1" (some 0) (some 0) (some 0) 0 0).2
    (Reachable.add initialGame "p1" (some 0) (some 0) (some 0) 0 0 Reachable.init)
